import Mathlib

/-!
A shallow embedding of the core of the whisper round-robin time-series
database (file whisper.py) and proofs about it.

Modelling conventions:
* A whisper file is modelled structurally: the 16-byte metadata block and the
  archive descriptor block become record fields, and each archive body (a ring
  of fixed-size 12-byte point slots) becomes a list of (timestamp, value)
  slots, in file order, so that the slot stored at the archive offset (the
  base point) is the head of the list.  A zero-filled slot is (0, 0).
* Timestamps are Nat (the on-disk format stores unsigned 32-bit timestamps).
  Time arithmetic that can go negative (age and distance computations) is done
  in Int.  Python floor division and modulo by a positive divisor coincide
  with Int division and Int.emod, which is what Lean's Int `div` and `mod`
  notation denotes here.
* Point values are modelled as exact rationals.  The xFilesFactor, which the
  code handles as an IEEE float whose NaN/infinity behaviour is observable,
  is modelled by the type PyFloat with Python's comparison semantics (every
  comparison involving NaN is false).  Where the code narrows the stored
  xFilesFactor to 32 bits the model keeps the exact value.
* Byte offsets inside an archive are always multiples of the point size; the
  code's byte arithmetic (byteDistance mod archive size, divided back into a
  slot position) is transcribed literally in wrapSlot.
* Exceptions become an error sum type; the error message strings are dropped.
  A Python NameError/StopIteration on a file with no archives is modelled by
  the runtimeError constructor.
-/

unseal Rat.mul Rat.inv Rat.add Rat.sub

/-- Decidable equality of results, used to evaluate the model on concrete
inputs. -/
instance {ε α : Type} [DecidableEq ε] [DecidableEq α] : DecidableEq (Except ε α) :=
  fun x y =>
    match x, y with
    | .ok a, .ok b => if h : a = b then .isTrue (by rw [h]) else .isFalse (by simp [h])
    | .error a, .error b =>
      if h : a = b then .isTrue (by rw [h]) else .isFalse (by simp [h])
    | .ok _, .error _ => .isFalse (by simp)
    | .error _, .ok _ => .isFalse (by simp)

namespace Whisper

/-- Errors raised by the whisper core, by kind (messages dropped).
runtimeError stands for Python runtime failures (NameError / StopIteration /
ValueError on granularity) that are not WhisperException subclasses. -/
inductive Err where
  | invalidConfiguration
  | invalidAggregationMethod
  | invalidTimeInterval
  | invalidXFilesFactor
  | timestampNotCovered
  | corruptWhisperFile
  | runtimeError
deriving DecidableEq, Repr

/-- A Python float as far as the whisper code observes it: an exact finite
value, NaN, or a signed infinity. -/
inductive PyFloat where
  | finite (q : ℚ)
  | nan
  | inf
  | ninf
deriving DecidableEq, Repr

/-- Python strict comparison of floats: any comparison with NaN is false. -/
def PyFloat.lt : PyFloat → PyFloat → Bool
  | .finite a, .finite b => decide (a < b)
  | .finite _, .inf => true
  | .ninf, .finite _ => true
  | .ninf, .inf => true
  | _, _ => false

/-- Python non-strict comparison of floats: any comparison with NaN is false. -/
def PyFloat.le : PyFloat → PyFloat → Bool
  | .finite a, .finite b => decide (a ≤ b)
  | .finite _, .inf => true
  | .ninf, .finite _ => true
  | .ninf, .inf => true
  | .ninf, .ninf => true
  | .inf, .inf => true
  | _, _ => false

/-- pointFormat is a 4-byte timestamp plus an 8-byte double. -/
def pointSize : Nat := 12

/-- metadataFormat packs two longs, a float and a long. -/
def metadataSize : Nat := 16

/-- archiveInfoFormat packs three longs. -/
def archiveInfoSize : Nat := 12

/-- The aggregationTypeToMethod dictionary: on-disk codes and method names. -/
def aggregationPairs : List (Nat × String) :=
  [(1, "average"), (2, "sum"), (3, "last"), (4, "max"),
   (5, "min"), (6, "avg_zero"), (7, "absmax"), (8, "absmin")]

/-- Lookup in aggregationTypeToMethod. -/
def aggregationTypeToMethod (n : Nat) : Option String :=
  (aggregationPairs.find? (fun p => p.1 = n)).map (fun p => p.2)

/-- Lookup in aggregationMethodToType (the inverted dictionary). -/
def aggregationMethodToType (s : String) : Option Nat :=
  (aggregationPairs.find? (fun p => p.2 = s)).map (fun p => p.1)

/-- The list of known aggregation method names. -/
def aggregationMethodNames : List String := aggregationPairs.map (fun p => p.2)

/-- One decoded archive descriptor, as in the header: absolute byte offset,
seconds per point, and number of points. -/
structure ArchiveInfo where
  offset : Nat
  secondsPerPoint : Nat
  points : Nat
deriving DecidableEq, Repr

/-- retention, precomputed by the header reader. -/
def ArchiveInfo.retention (a : ArchiveInfo) : Nat := a.secondsPerPoint * a.points

/-- size in bytes, precomputed by the header reader. -/
def ArchiveInfo.size (a : ArchiveInfo) : Nat := a.points * pointSize

/-- One stored point slot: timestamp and value. -/
abbrev Point : Type := Nat × ℚ

/-- An archive: its descriptor plus the ring of point slots in file order
(the head of the body list is the slot at the archive's byte offset). -/
structure Archive where
  info : ArchiveInfo
  body : List Point
deriving DecidableEq, Repr

/-- A whole whisper file, structurally: metadata fields plus the archives. -/
structure WhisperFile where
  aggregationMethod : String
  maxRetention : Nat
  xFilesFactor : PyFloat
  archives : List Archive
deriving DecidableEq, Repr

/-- The timestamp of the base point: the slot stored at the archive offset. -/
def baseTimestamp (body : List Point) : Nat := (body.headD (0, 0)).1

/-- The ring slot that holds the interval with timestamp target, given the
base interval, transcribing the byte arithmetic used throughout the code:
timeDistance = target - base; pointDistance = timeDistance // secondsPerPoint;
byteDistance = pointDistance * pointSize; slot byte = byteDistance % size. -/
def wrapSlot (a : ArchiveInfo) (base : Nat) (target : Int) : Nat :=
  let timeDistance : Int := target - (base : Int)
  let pointDistance : Int := timeDistance / (a.secondsPerPoint : Int)
  let byteDistance : Int := pointDistance * (pointSize : Int)
  (byteDistance % (a.size : Int)).toNat / pointSize

/-- Read the half-open slot range [fromSlot, untilSlot) from a ring body,
transcribing the two-read pattern: one contiguous read when fromSlot is
before untilSlot, else a read to the end of the archive followed by a read
from the start of the archive. -/
def readRange (body : List Point) (fromSlot untilSlot : Nat) : List Point :=
  if fromSlot < untilSlot then (body.drop fromSlot).take (untilSlot - fromSlot)
  else body.drop fromSlot ++ body.take untilSlot

/-- Decode a read series into a dense optional-value vector: the value at
index i is kept only when the stored timestamp equals
startInterval + i * step (the loop over unpackedSeries with a running
currentInterval). -/
def seriesToValues (series : List Point) (startInterval : Int) (step : Nat) :
    List (Option ℚ) :=
  (List.range series.length).map (fun i =>
    let p := series.getD i (0, 0)
    if (p.1 : Int) = startInterval + (i : Int) * (step : Int) then some p.2 else none)

/-- Python max over a nonempty list with a key, returning the first element
with the greatest key (a strictly greater key replaces the running best). -/
def pyMaxBy (key : ℚ → ℚ) (x : ℚ) (xs : List ℚ) : ℚ :=
  xs.foldl (fun best y => if key best < key y then y else best) x

/-- Python min over a nonempty list with a key, returning the first element
with the smallest key. -/
def pyMinBy (key : ℚ → ℚ) (x : ℚ) (xs : List ℚ) : ℚ :=
  xs.foldl (fun best y => if key y < key best then y else best) x

/-- Sum of a list of rationals (Python sum). -/
def pySum (xs : List ℚ) : ℚ := xs.foldl (· + ·) 0

/-- The aggregate function: combine the known values (and, for avg_zero, the
full neighbor vector) with the named method.  Unknown methods raise
InvalidAggregationMethod, as does avg_zero without a (truthy, i.e. nonempty)
neighbor vector.  knownValues is nonempty at every call site. -/
def aggregate (aggregationMethod : String) (knownValues : List ℚ)
    (neighborValues : Option (List (Option ℚ))) : Except Err ℚ :=
  if aggregationMethod = "average" then
    .ok (pySum knownValues / (knownValues.length : ℚ))
  else if aggregationMethod = "sum" then
    .ok (pySum knownValues)
  else if aggregationMethod = "last" then
    .ok (knownValues.getLastD 0)
  else if aggregationMethod = "max" then
    .ok (pyMaxBy id (knownValues.headD 0) (knownValues.drop 1))
  else if aggregationMethod = "min" then
    .ok (pyMinBy id (knownValues.headD 0) (knownValues.drop 1))
  else if aggregationMethod = "avg_zero" then
    match neighborValues with
    | none => .error .invalidAggregationMethod
    | some ns =>
      if ns.isEmpty then .error .invalidAggregationMethod
      else
        let values := ns.map (fun x => x.getD 0)
        .ok (pySum values / (values.length : ℚ))
  else if aggregationMethod = "absmax" then
    .ok (pyMaxBy abs (knownValues.headD 0) (knownValues.drop 1))
  else if aggregationMethod = "absmin" then
    .ok (pyMinBy abs (knownValues.headD 0) (knownValues.drop 1))
  else .error .invalidAggregationMethod

/-- The dense neighbor vector that __propagate builds from the higher archive
for the coarse interval starting at lowerIntervalStart. -/
def propagateNeighbors (higher : Archive) (lowerStep : Nat)
    (lowerIntervalStart : Nat) : List (Option ℚ) :=
  let higherBase := baseTimestamp higher.body
  let higherFirstSlot :=
    if higherBase = 0 then 0
    else wrapSlot higher.info higherBase (lowerIntervalStart : Int)
  let higherPoints := lowerStep / higher.info.secondsPerPoint
  let higherLastSlot := (higherFirstSlot + higherPoints) % higher.info.points
  let series := readRange higher.body higherFirstSlot higherLastSlot
  seriesToValues series (lowerIntervalStart : Int) higher.info.secondsPerPoint

/-- Write one packed point into a ring body: at the base slot when the body
is still empty there (base timestamp 0), else at the ring slot for the
interval. -/
def writePoint (info : ArchiveInfo) (body : List Point) (interval : Nat)
    (value : ℚ) : List Point :=
  let base := baseTimestamp body
  if base = 0 then body.set 0 (interval, value)
  else body.set (wrapSlot info base (interval : Int)) (interval, value)

/-- __propagate: aggregate one coarse slot of the lower archive from the
covering run of the higher archive.  Returns whether a value was propagated,
together with the (possibly rewritten) lower body. -/
def propagate (aggregationMethod : String) (xff : PyFloat) (timestamp : Nat)
    (higher lower : Archive) : Except Err (Bool × List Point) :=
  let lowerIntervalStart := timestamp - timestamp % lower.info.secondsPerPoint
  let neighborValues := propagateNeighbors higher lower.info.secondsPerPoint lowerIntervalStart
  let knownValues := neighborValues.filterMap id
  if knownValues.isEmpty then .ok (false, lower.body)
  else
    let knownPercent : ℚ := (knownValues.length : ℚ) / (neighborValues.length : ℚ)
    if PyFloat.le xff (.finite knownPercent) then do
      let aggregateValue ← aggregate aggregationMethod knownValues (some neighborValues)
      .ok (true, writePoint lower.info lower.body lowerIntervalStart aggregateValue)
    else .ok (false, lower.body)

/-- The cascade in file_update: propagate into each lower-precision archive
in turn, the freshly rewritten archive becoming the higher one, stopping at
the first propagation that returns false.  Returns the updated lower
archives. -/
def propagateChain (aggregationMethod : String) (xff : PyFloat) (interval : Nat) :
    Archive → List Archive → Except Err (List Archive)
  | _, [] => .ok []
  | higher, lower :: rest => do
    let r ← propagate aggregationMethod xff interval higher lower
    if r.1 then
      let lower' : Archive := { lower with body := r.2 }
      let rest' ← propagateChain aggregationMethod xff interval lower' rest
      .ok (lower' :: rest')
    else .ok (lower :: rest)

/-- The archive-selection scan in file_update: skip archives whose retention
is below the age, returning the archives before the target, the target, and
the remaining lower archives.  none models the case where no archive covers
the age, which cannot happen when maxRetention is covered by some archive
(on other files Python would write into the last archive and then hit a
NameError on the unbound lowerArchives; the model collapses that path to
runtimeError without the write). -/
def splitAtTarget (diff : Int) : List Archive →
    Option (List Archive × Archive × List Archive)
  | [] => none
  | a :: rest =>
    if (a.info.retention : Int) < diff then
      match splitAtTarget diff rest with
      | none => none
      | some (pre, t, post) => some (a :: pre, t, post)
    else some ([], a, rest)

/-- file_update: the single-point write path. -/
def file_update (f : WhisperFile) (value : ℚ) (timestamp now : Nat) :
    Except Err WhisperFile :=
  let diff : Int := (now : Int) - (timestamp : Int)
  if ¬(diff < (f.maxRetention : Int) ∧ 0 ≤ diff) then .error .timestampNotCovered
  else
    match splitAtTarget diff f.archives with
    | none => .error .runtimeError
    | some (pre, target, lowerArchives) =>
      let myInterval := timestamp - timestamp % target.info.secondsPerPoint
      let target' : Archive :=
        { target with body := writePoint target.info target.body myInterval value }
      match propagateChain f.aggregationMethod f.xFilesFactor myInterval
          target' lowerArchives with
      | .error e => .error e
      | .ok lowers' => .ok { f with archives := pre ++ target' :: lowers' }

/-- A fetch's interval rounding, fromInterval and untilInterval alike:
int(t - (t mod step)) + step, one step past the last boundary at or
before t. -/
def fetchInterval (step : Nat) (t : Int) : Int := t - t % (step : Int) + step

/-- A fetch's untilInterval: the rounded untilTime, extended by one more
step when it coincides with the rounded fromTime (a zero-length range
always includes the next point). -/
def fetchUntilInterval (step : Nat) (fromTime untilTime : Int) : Int :=
  if fetchInterval step fromTime = fetchInterval step untilTime then
    fetchInterval step untilTime + step
  else fetchInterval step untilTime

/-- The number of point slots a fetch covers:
(untilInterval - fromInterval) // step. -/
def fetchSlots (step : Nat) (fromTime untilTime : Int) : Nat :=
  ((fetchUntilInterval step fromTime untilTime - fetchInterval step fromTime) /
    (step : Int)).toNat

/-- __archive_fetch: read one archive over a time range.  The interval
bounds are rounded up to the next step boundary; a zero-length range is
extended by one step; an empty archive (base timestamp 0) yields all nulls.
Returns ((fromInterval, untilInterval, step), values). -/
def archive_fetch (arch : Archive) (fromTime untilTime : Int) :
    (Int × Int × Nat) × List (Option ℚ) :=
  let step := arch.info.secondsPerPoint
  let fromInterval := fetchInterval step fromTime
  let untilInterval := fetchUntilInterval step fromTime untilTime
  let base := baseTimestamp arch.body
  if base = 0 then
    let points := fetchSlots step fromTime untilTime
    ((fromInterval, untilInterval, step), List.replicate points none)
  else
    let fromSlot := wrapSlot arch.info base fromInterval
    let untilSlot := wrapSlot arch.info base untilInterval
    let series := readRange arch.body fromSlot untilSlot
    ((fromInterval, untilInterval, step), seriesToValues series fromInterval step)

/-- The archive-selection loop in file_fetch: with a truthy granularity
selector, the archive with that exact precision (else none, which raises);
without one, the first archive whose retention covers the age of fromTime,
else the last archive. -/
def chooseArchive (archives : List Archive) (sel : Option Nat) (diff : Int) :
    Option Archive :=
  if sel.getD 0 ≠ 0 then
    archives.find? (fun a => a.info.secondsPerPoint = sel.getD 0)
  else
    match archives.find? (fun a => diff ≤ (a.info.retention : Int)) with
    | some a => some a
    | none => archives.getLast?

/-- file_fetch: validate and clamp the requested range, select an archive,
and fetch.  sel is the already-parsed precision of the optional granularity
selector.  .ok none is the "no data" result. -/
def file_fetch (f : WhisperFile) (fromTime untilTime : Int) (now : Nat)
    (sel : Option Nat) : Except Err (Option ((Int × Int × Nat) × List (Option ℚ))) :=
  if fromTime > untilTime then .error .invalidTimeInterval
  else
    let oldestTime : Int := (now : Int) - (f.maxRetention : Int)
    if fromTime > (now : Int) then .ok none
    else if untilTime < oldestTime then .ok none
    else
      let fromTime := if fromTime < oldestTime then oldestTime else fromTime
      let untilTime := if untilTime > (now : Int) then (now : Int) else untilTime
      let diff := (now : Int) - fromTime
      if f.archives.isEmpty then .error .runtimeError
      else
        match chooseArchive f.archives sel diff with
        | none => .error .runtimeError
        | some arch => .ok (some (archive_fetch arch fromTime untilTime))

/-- __writeHeaderMetadata's validation and the packed metadata it writes:
the aggregation type code, maxRetention, xFilesFactor and archive count.
float(xFilesFactor) succeeds on every PyFloat (including NaN and the
infinities), so only the two order comparisons gate the value. -/
structure Metadata where
  aggregationType : Nat
  maxRetention : Nat
  xFilesFactor : PyFloat
  archiveCount : Nat
deriving DecidableEq, Repr

/-- __writeHeaderMetadata. -/
def writeHeaderMetadata (aggregationMethod : String) (maxRetention : Nat)
    (xFilesFactor : PyFloat) (archiveCount : Nat) : Except Err Metadata :=
  match aggregationMethodToType aggregationMethod with
  | none => .error .invalidAggregationMethod
  | some aggregationType =>
    if PyFloat.lt xFilesFactor (.finite 0) || PyFloat.lt (.finite 1) xFilesFactor then
      .error .invalidXFilesFactor
    else .ok ⟨aggregationType, maxRetention, xFilesFactor, archiveCount⟩

/-- Replacing the 16-byte metadata block of a file, as a later header read
decodes it (an unknown aggregation type decodes to "average"). -/
def applyMetadata (f : WhisperFile) (md : Metadata) : WhisperFile :=
  { f with
    aggregationMethod := (aggregationTypeToMethod md.aggregationType).getD "average",
    maxRetention := md.maxRetention,
    xFilesFactor := md.xFilesFactor }

/-- __setAggregation: substitute the requested method and/or xFilesFactor
into the header, rewrite the metadata block, and return the previous
(method, xFilesFactor) pair with the new file. -/
def setAggregation (f : WhisperFile) (aggregationMethod : Option String)
    (xFilesFactor : Option PyFloat) :
    Except Err ((String × PyFloat) × WhisperFile) := do
  let xff := xFilesFactor.getD f.xFilesFactor
  let method := aggregationMethod.getD f.aggregationMethod
  let md ← writeHeaderMetadata method f.maxRetention xff f.archives.length
  .ok ((f.aggregationMethod, f.xFilesFactor), applyMetadata f md)

/-- The view that info / __readHeader reports for one archive descriptor:
offset, secondsPerPoint, points, retention, size. -/
def archiveInfoView (a : ArchiveInfo) : Nat × Nat × Nat × Nat × Nat :=
  (a.offset, a.secondsPerPoint, a.points, a.retention, a.size)

/-- The header dictionary that info returns. -/
structure InfoView where
  aggregationMethod : String
  maxRetention : Nat
  xFilesFactor : PyFloat
  archives : List (Nat × Nat × Nat × Nat × Nat)
deriving DecidableEq, Repr

/-- info on an (uncorrupted) file. -/
def infoOf (f : WhisperFile) : InfoView :=
  { aggregationMethod := f.aggregationMethod,
    maxRetention := f.maxRetention,
    xFilesFactor := f.xFilesFactor,
    archives := f.archives.map (fun a => archiveInfoView a.info) }

/-- The per-pair checks of validateArchiveList over the precision-sorted
list: strictly increasing precision, dividing precision, strictly larger
retention, and enough points to consolidate one coarse slot. -/
def validatePairs : List (Nat × Nat) → Except Err Unit
  | [] => .ok ()
  | [_] => .ok ()
  | a :: b :: rest =>
    if ¬(a.1 < b.1) then .error .invalidConfiguration
    else if b.1 % a.1 ≠ 0 then .error .invalidConfiguration
    else if ¬(a.1 * a.2 < b.1 * b.2) then .error .invalidConfiguration
    else if ¬(b.1 / a.1 ≤ a.2) then .error .invalidConfiguration
    else validatePairs (b :: rest)

/-- validateArchiveList: reject an empty list, sort by precision (Python's
sort is stable, as is insertion sort), and run the pairwise checks.  Returns
the sorted list (the Python code sorts the caller's list in place and create
then iterates it). -/
def validateArchiveList (archiveList : List (Nat × Nat)) :
    Except Err (List (Nat × Nat)) :=
  if archiveList.isEmpty then .error .invalidConfiguration
  else
    let sorted := archiveList.insertionSort (fun a b => a.1 ≤ b.1)
    match validatePairs sorted with
    | .error e => .error e
    | .ok _ => .ok sorted

/-- The archive descriptors create writes: offsets are running sums starting
after the header. -/
def buildArchives : Nat → List (Nat × Nat) → List Archive
  | _, [] => []
  | offsetPointer, (secondsPerPoint, points) :: rest =>
    { info := { offset := offsetPointer, secondsPerPoint := secondsPerPoint,
                points := points },
      body := List.replicate points (0, 0) } ::
      buildArchives (offsetPointer + points * pointSize) rest

/-- create: validate the archive list, fail if the target exists, write the
metadata (defaults: xFilesFactor 0.5, method "average") and the descriptor
block, and zero-fill the archive bodies.  fileExists models the
os.path.exists check. -/
def create (fileExists : Bool) (archiveList : List (Nat × Nat))
    (xFilesFactor : Option PyFloat) (aggregationMethod : Option String) :
    Except Err WhisperFile := do
  let xff := xFilesFactor.getD (.finite (1 / 2))
  let method := aggregationMethod.getD "average"
  let sorted ← validateArchiveList archiveList
  if fileExists then .error .invalidConfiguration
  else
    let oldest := (sorted.map (fun p => p.1 * p.2)).foldl max 0
    let md ← writeHeaderMetadata method oldest xff sorted.length
    let headerSize := metadataSize + archiveInfoSize * sorted.length
    .ok (applyMetadata
      { aggregationMethod := "average", maxRetention := 0,
        xFilesFactor := .finite 0, archives := buildArchives headerSize sorted } md)

/-- Total file size in bytes: header plus the archive bodies. -/
def fileSizeBytes (f : WhisperFile) : Nat :=
  metadataSize + archiveInfoSize * f.archives.length +
    (f.archives.map (fun a => a.info.points * pointSize)).foldl (· + ·) 0

/-- Replace the body of archive i of a file. -/
def setArchiveBody (f : WhisperFile) (i : Nat) (body : List Point) : WhisperFile :=
  { f with archives :=
      match f.archives[i]? with
      | none => f.archives
      | some a => f.archives.set i { a with body := body } }

/-- The duplicate-interval skip in __archive_update_many: a point is dropped
when the next aligned point has the same interval, so the last of a run of
duplicates survives. -/
def dedupKeepLast : List (Int × ℚ) → List (Int × ℚ)
  | [] => []
  | [p] => [p]
  | p :: q :: rest =>
    if p.1 = q.1 then dedupKeepLast (q :: rest)
    else p :: dedupKeepLast (q :: rest)

/-- Grouping of aligned points into maximal runs of consecutive intervals
(packedStrings), transcribing the loop state: prev is previousInterval with
0 standing for Python's falsy None (so an interval of exactly 0 also starts
a fresh accumulation, as in the source), cur the current run.  At a flush
the run's start interval is recomputed as prev - step * (count - 1). -/
def buildRunsGo (step : Nat) : Int → List (Int × ℚ) → List (Int × ℚ) →
    List (Int × List (Int × ℚ))
  | prev, cur, [] =>
    if cur.isEmpty then []
    else [(prev - (step : Int) * ((cur.length : Int) - 1), cur.reverse)]
  | prev, cur, (interval, value) :: rest =>
    if prev = 0 ∨ interval = prev + (step : Int) then
      buildRunsGo step interval ((interval, value) :: cur) rest
    else
      (prev - (step : Int) * ((cur.length : Int) - 1), cur.reverse) ::
        buildRunsGo step interval [(interval, value)] rest

/-- packedStrings: deduplicate aligned points then group into runs. -/
def buildRuns (step : Nat) (alignedPoints : List (Int × ℚ)) :
    List (Int × List (Int × ℚ)) :=
  buildRunsGo step 0 [] (dedupKeepLast alignedPoints)

/-- Write one packed run into a ring body starting at the given slot,
wrapping past the end of the archive (the bytesBeyond split).  Timestamps
are stored as the unsigned 32-bit value of the interval. -/
def writeRun (body : List Point) (slot : Nat) (run : List (Int × ℚ)) :
    List Point :=
  let n := body.length
  (run.zip (List.range run.length)).foldl
    (fun b pk => b.set ((slot + pk.2) % n) (pk.1.1.toNat, pk.1.2)) body

/-- The write phase of __archive_update_many on one archive body: compute the
runs, adopt the first run's start as base interval when the archive is still
empty, and write each run at its ring position. -/
def archiveUpdateManyBody (info : ArchiveInfo) (body : List Point)
    (alignedPoints : List (Int × ℚ)) : List Point :=
  let step := info.secondsPerPoint
  let packedStrings := buildRuns step alignedPoints
  let baseInterval0 := baseTimestamp body
  let baseInterval : Int :=
    if baseInterval0 = 0 then (packedStrings.headD (0, [])).1
    else (baseInterval0 : Int)
  packedStrings.foldl
    (fun b ir =>
      let pointDistance := (ir.1 - baseInterval) / (step : Int)
      let byteDistance := pointDistance * (pointSize : Int)
      let slot := ((byteDistance % (info.size : Int)).toNat) / pointSize
      writeRun b slot ir.2)
    body

/-- The propagation loop at the end of __archive_update_many: for each
coarser archive, propagate once per distinct coarse-aligned interval of the
batch (the Python iteration order over the set is unspecified; the model
keeps first-occurrence order), and continue down only when at least one
propagation succeeded.  higherIdx / lowerIdxs index into the file's archive
list. -/
def propagateLowers (method : String) (xff : PyFloat) (alignedTs : List Int) :
    WhisperFile → Nat → List Nat → Except Err WhisperFile
  | f, _, [] => .ok f
  | f, higherIdx, lowerIdx :: rest =>
    match f.archives[higherIdx]?, f.archives[lowerIdx]? with
    | some _, some lowerA =>
      let fit := fun (i : Int) => i - i % (lowerA.info.secondsPerPoint : Int)
      let uniqueLowerIntervals := (alignedTs.map fit).eraseDups
      match uniqueLowerIntervals.foldlM
          (fun (acc : Bool × WhisperFile) interval => do
            match acc.2.archives[higherIdx]?, acc.2.archives[lowerIdx]? with
            | some hA, some lA => do
              let r ← propagate method xff interval.toNat hA lA
              if r.1 then .ok (true, setArchiveBody acc.2 lowerIdx r.2)
              else .ok (acc.1, acc.2)
            | _, _ => .error .runtimeError)
          (false, f) with
      | .error e => .error e
      | .ok (propagateFurther, f') =>
        if propagateFurther then propagateLowers method xff alignedTs f' lowerIdx rest
        else .ok f'
    | _, _ => .error .runtimeError

/-- __archive_update_many on archive i of the file: align the batch, write
the runs, then run the propagation cascade over the coarser archives. -/
def archive_update_many (f : WhisperFile) (i : Nat) (points : List (Int × ℚ)) :
    Except Err WhisperFile :=
  match f.archives[i]? with
  | none => .error .runtimeError
  | some arch =>
    let step := arch.info.secondsPerPoint
    let alignedPoints := points.map (fun tv => (tv.1 - tv.1 % (step : Int), tv.2))
    let f' := setArchiveBody f i (archiveUpdateManyBody arch.info arch.body alignedPoints)
    let lowerIdxs :=
      ((f.archives.zip (List.range f.archives.length)).filter
        (fun aj => step < aj.1.info.secondsPerPoint)).map (fun aj => aj.2)
    propagateLowers f.aggregationMethod f.xFilesFactor
      (alignedPoints.map (fun tv => tv.1)) f' i lowerIdxs

/-- The main loop of file_update_many: walk the newest-first points,
accumulating the batch for the current archive (idxs is the not-yet-consumed
suffix of archive indices); when a point's age exceeds the current archive's
retention, commit the batch and advance; when the archives run out, drop the
remaining points.  The final pending batch is committed at the end. -/
def updateManyGo (now : Nat) : WhisperFile → List Nat → List (Int × ℚ) →
    List (Int × ℚ) → Except Err WhisperFile
  | f, idxs, cur, [] =>
    match idxs with
    | [] => .ok f
    | i :: _ => if cur.isEmpty then .ok f else archive_update_many f i cur.reverse
  | f, [], _cur, _ :: _ => .ok f
  | f, i :: is, cur, p :: rest =>
    match f.archives[i]? with
    | none => .error .runtimeError
    | some arch =>
      if (arch.info.retention : Int) < (now : Int) - p.1 then
        if cur.isEmpty then updateManyGo now f is [] (p :: rest)
        else
          match archive_update_many f i cur.reverse with
          | .error e => .error e
          | .ok f' => updateManyGo now f' is [] (p :: rest)
      else updateManyGo now f (i :: is) (p :: cur) rest
  termination_by _f idxs _cur pts => (pts.length, idxs.length)

/-- file_update_many: a file with no archives crashes in Python on the first
next() call (modelled as runtimeError); otherwise run the batching loop over
the archive indices. -/
def file_update_many (f : WhisperFile) (points : List (Int × ℚ)) (now : Nat) :
    Except Err WhisperFile :=
  if f.archives.isEmpty then .error .runtimeError
  else updateManyGo now f (List.range f.archives.length) [] points

/-- update_many: an empty point list returns immediately, before the file is
even opened; otherwise sort newest-first (Python's stable reverse sort) and
run file_update_many. -/
def update_many (f : WhisperFile) (points : List (Int × ℚ)) (now : Nat) :
    Except Err WhisperFile :=
  if points.isEmpty then .ok f
  else file_update_many f (points.insertionSort (fun a b => b.1 ≤ a.1)) now

/-- The end-to-end scenario behind spec scenario 2: create db.wsp with
archives (1,60),(60,60), update value 2.0 at the (trivially step-aligned)
time now, then fetch the range (now - 1, now + 1) with the same clock. -/
def scenario2 (now : Nat) : Except Err (Option ((Int × Int × Nat) × List (Option ℚ))) := do
  let f ← create false [(1, 60), (60, 60)] none none
  let f' ← file_update f 2 now now
  file_fetch f' ((now : Int) - 1) ((now : Int) + 1) now none

/-! Statement-side abbreviations: names for the intermediate quantities that
the specification talks about, so the claim theorems can mention them. -/

/-- The coarse interval start that a propagation targets. -/
def lowerIntervalStartOf (lower : Archive) (timestamp : Nat) : Nat :=
  timestamp - timestamp % lower.info.secondsPerPoint

/-- The neighbor vector a propagation inspects. -/
def neighborsOf (higher lower : Archive) (timestamp : Nat) : List (Option ℚ) :=
  propagateNeighbors higher lower.info.secondsPerPoint
    (lowerIntervalStartOf lower timestamp)

/-- The known (non-null) values among the neighbors. -/
def knownOf (higher lower : Archive) (timestamp : Nat) : List ℚ :=
  (neighborsOf higher lower timestamp).filterMap id

/-- The fraction of known neighbor values. -/
def knownFraction (higher lower : Archive) (timestamp : Nat) : ℚ :=
  ((knownOf higher lower timestamp).length : ℚ) /
    ((neighborsOf higher lower timestamp).length : ℚ)

/-- The index of the highest-precision archive whose retention covers the
age of a single-point write. -/
def targetIndex (f : WhisperFile) (diff : Int) : Nat :=
  f.archives.findIdx (fun a => decide (diff ≤ (a.info.retention : Int)))

/-- What the specification says the i-th fetched value is: null when the
archive is empty; otherwise the stored value at the ring slot of the i-th
requested interval, kept only when that slot's timestamp equals the
interval. -/
def fetchSpecValue (arch : Archive) (fromInterval : Int) (i : Nat) : Option ℚ :=
  let base := baseTimestamp arch.body
  if base = 0 then none
  else
    let interval := fromInterval + (i : Int) * (arch.info.secondsPerPoint : Int)
    let p := arch.body.getD (wrapSlot arch.info base interval) (0, 0)
    if (p.1 : Int) = interval then some p.2 else none

/-- The per-adjacent-pair well-formedness that validateArchiveList enforces
on the precision-sorted archive list. -/
def GoodPair (a b : Nat × Nat) : Prop :=
  a.1 < b.1 ∧ b.1 % a.1 = 0 ∧ a.1 * a.2 < b.1 * b.2 ∧ b.1 / a.1 ≤ a.2

instance (a b : Nat × Nat) : Decidable (GoodPair a b) := by
  unfold GoodPair
  infer_instance

/-- The claim's conditions for create raising InvalidConfiguration, stated
in the spec's own terms: empty list, duplicated precision anywhere,
a coarser precision that is not a multiple of the next finer one,
insufficient retention growth, insufficient points to consolidate,
or a pre-existing target file. -/
def c8Conditions (fileExists : Bool) (l : List (Nat × Nat)) : Prop :=
  l = [] ∨
  ¬ (l.map Prod.fst).Nodup ∨
  (∃ p ∈ (l.insertionSort (fun a b => a.1 ≤ b.1)).zip
      ((l.insertionSort (fun a b => a.1 ≤ b.1)).drop 1), ¬ (p.1.1 ∣ p.2.1)) ∨
  (∃ p ∈ (l.insertionSort (fun a b => a.1 ≤ b.1)).zip
      ((l.insertionSort (fun a b => a.1 ≤ b.1)).drop 1),
      ¬ (p.1.1 * p.1.2 < p.2.1 * p.2.2)) ∨
  (∃ p ∈ (l.insertionSort (fun a b => a.1 ≤ b.1)).zip
      ((l.insertionSort (fun a b => a.1 ≤ b.1)).drop 1), p.1.2 < p.2.1 / p.1.1) ∨
  fileExists = true

instance (fileExists : Bool) (l : List (Nat × Nat)) :
    Decidable (c8Conditions fileExists l) := by
  unfold c8Conditions
  infer_instance

/-- A small valid one-archive file used to instantiate theorems on concrete
inputs: 10 points of 1 second, retention 10. -/
def sampleFile : WhisperFile :=
  { aggregationMethod := "average", maxRetention := 10,
    xFilesFactor := .finite (1 / 2),
    archives := [⟨⟨28, 1, 10⟩, List.replicate 10 (0, 0)⟩] }

/-- A higher archive holding 3 known points (timestamps 100..102) in a ring
of 10 one-second slots. -/
def hiArchive : Archive :=
  ⟨⟨40, 1, 10⟩, [(100, 1), (101, 2), (102, 3), (0, 0), (0, 0), (0, 0), (0, 0),
                 (0, 0), (0, 0), (0, 0)]⟩

/-- An empty lower archive of 4 five-second slots (coarse to fine ratio 5). -/
def loArchive : Archive := ⟨⟨160, 5, 4⟩, List.replicate 4 (0, 0)⟩

/-- A tiny stale archive used for the fetch counterexample: 3 one-second
slots whose base interval is 100. -/
def staleArchive : Archive := ⟨⟨40, 1, 3⟩, [(100, 1), (101, 2), (102, 3)]⟩

/-- A two-archive file containing staleArchive, for selector fetches. -/
def staleFile : WhisperFile :=
  { aggregationMethod := "average", maxRetention := 300,
    xFilesFactor := .finite (1 / 2),
    archives := [staleArchive, ⟨⟨76, 3, 100⟩, List.replicate 100 (0, 0)⟩] }

/-! ## Helper lemmas -/

theorem bind_ok_eq {ε α β : Type} (a : α) (k : α → Except ε β) :
    (Except.ok a : Except ε α) >>= k = k a := rfl

/-- propagate, rewritten in terms of the named neighbor quantities (they are
definitionally the values the code computes). -/
theorem propagate_eq (m : String) (xff : PyFloat) (t : Nat) (hi lo : Archive) :
    propagate m xff t hi lo =
      if (knownOf hi lo t).isEmpty then .ok (false, lo.body)
      else if PyFloat.le xff (.finite (knownFraction hi lo t)) then
        (aggregate m (knownOf hi lo t) (some (neighborsOf hi lo t))).bind
          (fun v => .ok (true, writePoint lo.info lo.body (lowerIntervalStartOf lo t) v))
      else .ok (false, lo.body) := rfl

/-- With a recognized method and a nonempty neighbor vector, aggregation
always produces a value. -/
theorem aggregate_ok (m : String) (hm : m ∈ aggregationMethodNames)
    (known : List ℚ) (ns : List (Option ℚ)) (hns : ns ≠ []) :
    ∃ v, aggregate m known (some ns) = .ok v := by
  have hne : ns.isEmpty = false := by
    cases ns with
    | nil => exact absurd rfl hns
    | cons a l => rfl
  have hm' : m = "average" ∨ m = "sum" ∨ m = "last" ∨ m = "max" ∨ m = "min" ∨
      m = "avg_zero" ∨ m = "absmax" ∨ m = "absmin" := by
    simpa [aggregationMethodNames, aggregationPairs] using hm
  rcases hm' with h | h | h | h | h | h | h | h <;> subst h <;>
    simp [aggregate, hne]

/-- With a recognized method, propagate never raises. -/
theorem propagate_ok (m : String) (hm : m ∈ aggregationMethodNames)
    (xff : PyFloat) (t : Nat) (hi lo : Archive) :
    ∃ r, propagate m xff t hi lo = .ok r := by
  rw [propagate_eq]
  by_cases he : (knownOf hi lo t).isEmpty = true
  · exact ⟨_, by rw [if_pos he]⟩
  · rw [if_neg he]
    by_cases hle : PyFloat.le xff (.finite (knownFraction hi lo t)) = true
    · rw [if_pos hle]
      have hns : neighborsOf hi lo t ≠ [] := by
        intro h
        apply he
        simp [knownOf, h]
      obtain ⟨v, hv⟩ := aggregate_ok m hm (knownOf hi lo t) (neighborsOf hi lo t) hns
      exact ⟨_, by rw [hv]; rfl⟩
    · exact ⟨_, by rw [if_neg hle]⟩

/-- With a recognized method, the propagation cascade never raises. -/
theorem propagateChain_ok (m : String) (hm : m ∈ aggregationMethodNames)
    (xff : PyFloat) (t : Nat) :
    ∀ (rest : List Archive) (hi : Archive),
      ∃ l, propagateChain m xff t hi rest = .ok l := by
  intro rest
  induction rest with
  | nil => intro hi; exact ⟨[], rfl⟩
  | cons lower rest ih =>
    intro hi
    obtain ⟨r, hr⟩ := propagate_ok m hm xff t hi lower
    by_cases hb : r.1 = true
    · obtain ⟨l', hl'⟩ := ih { lower with body := r.2 }
      refine ⟨{ lower with body := r.2 } :: l', ?_⟩
      simp only [propagateChain, hr, bind_ok_eq, hb, if_true, hl']
    · refine ⟨lower :: rest, ?_⟩
      have hb' : r.1 = false := by simpa using hb
      simp only [propagateChain, hr, bind_ok_eq, hb', Bool.false_eq_true, if_false]

/-! ## Claim theorems -/

/-- C1: a propagation writes the aggregated point at lowerIntervalStart into
the lower archive and returns true exactly when the neighbor vector has at
least one known value and the known fraction reaches the xFilesFactor
(equality included); otherwise it returns false and leaves the lower archive
unchanged. -/
theorem propagate_spec (m : String) (q : ℚ) (t : Nat) (hi lo : Archive)
    (hm : m ∈ aggregationMethodNames)
    (hhi : 0 < hi.info.secondsPerPoint ∧ 0 < hi.info.points)
    (hlo : 0 < lo.info.secondsPerPoint ∧ 0 < lo.info.points) :
    (knownOf hi lo t = [] ∨ knownFraction hi lo t < q →
      propagate m (.finite q) t hi lo = .ok (false, lo.body))
  ∧ (knownOf hi lo t ≠ [] → q ≤ knownFraction hi lo t →
      ∃ v, aggregate m (knownOf hi lo t) (some (neighborsOf hi lo t)) = .ok v ∧
        propagate m (.finite q) t hi lo =
          .ok (true, writePoint lo.info lo.body (lowerIntervalStartOf lo t) v)) := by
  constructor
  · intro h
    rw [propagate_eq]
    rcases h with h | h
    · rw [if_pos (by simp [h])]
    · by_cases he : (knownOf hi lo t).isEmpty = true
      · rw [if_pos he]
      · rw [if_neg he, if_neg]
        simp only [PyFloat.le, decide_eq_true_eq]
        exact not_le.mpr h
  · intro hne hle
    have hns : neighborsOf hi lo t ≠ [] := by
      intro h
      apply hne
      simp [knownOf, h]
    obtain ⟨v, hv⟩ := aggregate_ok m hm (knownOf hi lo t) (neighborsOf hi lo t) hns
    refine ⟨v, hv, ?_⟩
    rw [propagate_eq, if_neg (by simp [hne]), if_pos (by simp [PyFloat.le, hle]), hv]
    rfl

/-- Witness for C1, following the spec's xFilesFactor-gate example: with
xff = 3/5 and a coarse-to-fine ratio of 5, three known fine values out of
five (a fraction exactly equal to the factor) propagate their average. -/
theorem propagate_spec_witness :
    propagate "average" (.finite (3 / 5)) 100 hiArchive loArchive =
      .ok (true, [(100, 2), (0, 0), (0, 0), (0, 0)]) := by
  obtain ⟨v, hv, hp⟩ :=
    (propagate_spec "average" (3 / 5) 100 hiArchive loArchive (by decide)
      (by decide) (by decide)).2 (by decide) (by decide)
  have hv2 : aggregate "average" (knownOf hiArchive loArchive 100)
      (some (neighborsOf hiArchive loArchive 100)) = .ok 2 := by decide
  rw [hv] at hv2
  injection hv2 with h
  subst h
  rw [hp]
  decide

/-- C6 counterexample: the claim demands InvalidXFilesFactor for every
non-finite xFilesFactor, but a NaN passes both order checks (every Python
comparison with NaN is false) and the metadata write succeeds. -/
theorem writeHeaderMetadata_nan_cex :
    writeHeaderMetadata "average" 3600 .nan 2 = .ok ⟨1, 3600, .nan, 2⟩ := by decide

/-- C6 (amended): a metadata write fails with InvalidXFilesFactor exactly
when the xFilesFactor argument is positive or negative infinity or a finite
float outside the closed interval from 0 to 1 (NaN is accepted), and an
unknown aggregation method name fails with InvalidAggregationMethod. -/
theorem writeHeaderMetadata_spec (m : String) (maxR n : Nat) (x : PyFloat) :
    (m ∈ aggregationMethodNames →
      (writeHeaderMetadata m maxR x n = .error .invalidXFilesFactor ↔
        (x = .inf ∨ x = .ninf ∨ ∃ q, x = .finite q ∧ (q < 0 ∨ 1 < q))))
  ∧ (m ∉ aggregationMethodNames →
      writeHeaderMetadata m maxR x n = .error .invalidAggregationMethod) := by
  have hnames : ∀ s : String, s ∈ aggregationMethodNames ↔
      (aggregationMethodToType s).isSome = true := by
    intro s
    simp [aggregationMethodNames, aggregationMethodToType, List.find?_isSome,
      List.mem_map]
  constructor
  · intro hm
    obtain ⟨ty, hty⟩ := Option.isSome_iff_exists.mp ((hnames m).mp hm)
    unfold writeHeaderMetadata
    rw [hty]
    cases x with
    | finite q =>
      simp only [PyFloat.lt]
      by_cases h0 : q < 0
      · simp [h0]
      · by_cases h1 : 1 < q
        · simp [h0, h1]
        · simp [h0, h1]
    | nan => simp [PyFloat.lt]
    | inf => simp [PyFloat.lt]
    | ninf => simp [PyFloat.lt]
  · intro hm
    have : aggregationMethodToType m = none := by
      cases h : aggregationMethodToType m with
      | none => rfl
      | some ty => exact absurd ((hnames m).mpr (by simp [h])) hm
    unfold writeHeaderMetadata
    rw [this]

/-- Witness for C6: a bogus method name is rejected, and a finite
xFilesFactor above 1 is rejected. -/
theorem writeHeaderMetadata_spec_witness :
    writeHeaderMetadata "bogus" 60 (.finite (1 / 2)) 1 =
        .error .invalidAggregationMethod ∧
    writeHeaderMetadata "average" 60 (.finite 2) 1 = .error .invalidXFilesFactor := by
  refine ⟨(writeHeaderMetadata_spec "bogus" 60 1 (.finite (1 / 2))).2 (by decide), ?_⟩
  exact ((writeHeaderMetadata_spec "average" 60 1 (.finite 2)).1 (by decide)).mpr
    (Or.inr (Or.inr ⟨2, rfl, Or.inr (by norm_num)⟩))

/-- C7: creating db.wsp with archives (1,60),(60,60) and defaults yields a
1480-byte file whose header reports maxRetention 3600, xFilesFactor 0.5,
method average, and archive offsets 40 and 760. -/
theorem create_info_spec :
    (create false [(1, 60), (60, 60)] none none).map
        (fun f => (fileSizeBytes f, infoOf f)) =
      .ok (1480,
        { aggregationMethod := "average", maxRetention := 3600,
          xFilesFactor := .finite (1 / 2),
          archives := [(40, 1, 60, 60, 720), (760, 60, 60, 3600, 720)] }) := by
  decide

/-- C10: update_many with an empty point list returns immediately with the
file unchanged, for every file state and clock. -/
theorem update_many_empty (f : WhisperFile) (now : Nat) :
    update_many f [] now = .ok f := rfl

/-- The archive-selection scan finds the first archive whose retention
covers the age, splitting the archive list there. -/
theorem splitAtTarget_of_exists (diff : Int) (l : List Archive)
    (h : ∃ a ∈ l, diff ≤ (a.info.retention : Int)) :
    ∃ tgt,
      l[l.findIdx (fun a => decide (diff ≤ (a.info.retention : Int)))]? = some tgt ∧
      splitAtTarget diff l =
        some (l.take (l.findIdx (fun a => decide (diff ≤ (a.info.retention : Int)))),
          tgt,
          l.drop (l.findIdx (fun a => decide (diff ≤ (a.info.retention : Int))) + 1)) := by
  induction l with
  | nil => simp at h
  | cons a rest ih =>
    by_cases ha : diff ≤ (a.info.retention : Int)
    · refine ⟨a, ?_, ?_⟩
      · simp [List.findIdx_cons, ha]
      · unfold splitAtTarget
        rw [if_neg (not_lt.mpr ha)]
        simp [List.findIdx_cons, ha]
    · have hrest : ∃ b ∈ rest, diff ≤ (b.info.retention : Int) := by
        rcases h with ⟨b, hb, hble⟩
        cases hb with
        | head => exact absurd hble ha
        | tail _ hb' => exact ⟨b, hb', hble⟩
      obtain ⟨tgt, h1, h2⟩ := ih hrest
      refine ⟨tgt, ?_, ?_⟩
      · simp [List.findIdx_cons, ha, h1]
      · unfold splitAtTarget
        rw [if_pos (not_le.mp ha), h2]
        simp [List.findIdx_cons, ha]

/-- C2: a single-point write fails with TimestampNotCovered exactly when the
age diff = now - timestamp is negative or at least maxRetention; for an age
inside the window no error is raised and the point, aligned down to the
archive's step, is written into the first (highest-resolution) archive whose
retention covers the age. -/
theorem file_update_spec (f : WhisperFile) (v : ℚ) (t now : Nat)
    (hm : f.aggregationMethod ∈ aggregationMethodNames)
    (hwf : ∀ a ∈ f.archives, 0 < a.info.secondsPerPoint ∧ 0 < a.info.points)
    (hcov : ∃ a ∈ f.archives, (f.maxRetention : Int) ≤ (a.info.retention : Int)) :
    ((file_update f v t now = .error .timestampNotCovered) ↔
      ((now : Int) - (t : Int) < 0 ∨ (f.maxRetention : Int) ≤ (now : Int) - (t : Int)))
  ∧ (0 ≤ (now : Int) - (t : Int) → (now : Int) - (t : Int) < (f.maxRetention : Int) →
      (file_update f v t now).map
          (fun f' => f'.archives[targetIndex f ((now : Int) - (t : Int))]?) =
        .ok ((f.archives[targetIndex f ((now : Int) - (t : Int))]?).map
          (fun a => { a with
            body := writePoint a.info a.body (t - t % a.info.secondsPerPoint) v }))) := by
  by_cases hc : (now : Int) - (t : Int) < (f.maxRetention : Int) ∧
      0 ≤ (now : Int) - (t : Int)
  · have henough : ∃ a ∈ f.archives,
        (now : Int) - (t : Int) ≤ (a.info.retention : Int) := by
      rcases hcov with ⟨a, haMem, haRet⟩
      exact ⟨a, haMem, le_trans (le_of_lt hc.1) haRet⟩
    obtain ⟨tgt, hget, hsplit⟩ := splitAtTarget_of_exists _ _ henough
    set pIdx := f.archives.findIdx
      (fun a => decide ((now : Int) - (t : Int) ≤ (a.info.retention : Int))) with hpIdx
    set tgt' : Archive :=
      { tgt with body := writePoint tgt.info tgt.body (t - t % tgt.info.secondsPerPoint) v }
      with htgt'
    obtain ⟨lowers', hchain⟩ := propagateChain_ok f.aggregationMethod hm f.xFilesFactor
      (t - t % tgt.info.secondsPerPoint) (f.archives.drop (pIdx + 1)) tgt'
    have hrun : file_update f v t now =
        .ok { f with archives := f.archives.take pIdx ++ tgt' :: lowers' } := by
      simp only [file_update]
      rw [if_neg (not_not_intro hc)]
      simp only [hsplit, hchain]
    have hklt : pIdx < f.archives.length := by
      by_contra hk
      rw [List.getElem?_eq_none (le_of_not_lt hk)] at hget
      exact Option.noConfusion hget
    refine ⟨?_, ?_⟩
    · rw [hrun]
      simp only [reduceCtorEq, false_iff]
      omega
    · intro _ _
      have hti : targetIndex f ((now : Int) - (t : Int)) = pIdx := rfl
      rw [hrun, hti, hget]
      simp only [Except.map, Option.map_some']
      have hlen : (f.archives.take pIdx).length = pIdx := by
        simp [List.length_take, Nat.min_eq_left (le_of_lt hklt)]
      rw [List.getElem?_append_right hlen.le, hlen, Nat.sub_self]
      simp [htgt']
  · have hrun : file_update f v t now = .error .timestampNotCovered := by
      simp only [file_update]
      rw [if_pos hc]
    refine ⟨?_, ?_⟩
    · rw [hrun]
      simp only [true_iff]
      omega
    · intro h1 h2
      exact absurd ⟨h2, h1⟩ hc

/-- Witness for C2: an update of value 2 at time 100 with clock 100 (age 0)
on a one-archive file writes (100, 2) into that archive. -/
theorem file_update_spec_witness :
    ("average" ∈ aggregationMethodNames ∧
      (∀ a ∈ sampleFile.archives,
        0 < a.info.secondsPerPoint ∧ 0 < a.info.points) ∧
      (∃ a ∈ sampleFile.archives,
        (sampleFile.maxRetention : Int) ≤ (a.info.retention : Int)) ∧
      0 ≤ ((100 : Nat) : Int) - ((100 : Nat) : Int) ∧
      ((100 : Nat) : Int) - ((100 : Nat) : Int) < (sampleFile.maxRetention : Int)) ∧
    (file_update sampleFile 2 100 100).map
        (fun f' => f'.archives[targetIndex sampleFile (((100 : Nat) : Int) - ((100 : Nat) : Int))]?) =
      .ok ((sampleFile.archives[targetIndex sampleFile (((100 : Nat) : Int) - ((100 : Nat) : Int))]?).map
        (fun a => { a with
          body := writePoint a.info a.body (100 - 100 % a.info.secondsPerPoint) 2 })) := by
  refine ⟨⟨by decide, by decide, by decide, by decide, by decide⟩, ?_⟩
  exact (file_update_spec sampleFile 2 100 100 (by decide) (by decide) (by decide)).2
    (by decide) (by decide)

/-- The type code and the method name round-trip for every known method. -/
theorem methodType_roundTrip (m : String) (hm : m ∈ aggregationMethodNames) :
    ∃ ty, aggregationMethodToType m = some ty ∧
      aggregationTypeToMethod ty = some m := by
  have hm' : m = "average" ∨ m = "sum" ∨ m = "last" ∨ m = "max" ∨ m = "min" ∨
      m = "avg_zero" ∨ m = "absmax" ∨ m = "absmin" := by
    simpa [aggregationMethodNames, aggregationPairs] using hm
  rcases hm' with h | h | h | h | h | h | h | h <;> subst h <;> exact ⟨_, rfl, rfl⟩

/-- C9: on a file whose stored xFilesFactor passes the metadata validation,
setting the aggregation method returns the previous (method, xFilesFactor)
pair and changes nothing but the metadata block: the resulting file is the
old file with only its aggregationMethod field replaced (descriptors and
archive bodies are byte-identical), and info then reports the new method. -/
theorem setAggregation_spec (f : WhisperFile) (m : String)
    (hm : m ∈ aggregationMethodNames)
    (hx : (PyFloat.lt f.xFilesFactor (.finite 0) ||
      PyFloat.lt (.finite 1) f.xFilesFactor) = false) :
    setAggregation f (some m) none =
      .ok ((f.aggregationMethod, f.xFilesFactor), { f with aggregationMethod := m }) ∧
    (infoOf { f with aggregationMethod := m }).aggregationMethod = m := by
  obtain ⟨ty, h1, h2⟩ := methodType_roundTrip m hm
  refine ⟨?_, rfl⟩
  simp only [setAggregation, Option.getD_some, Option.getD_none, writeHeaderMetadata,
    h1, hx, Bool.false_eq_true, if_false, bind_ok_eq, applyMetadata, h2]

/-- Witness for C9: switching sampleFile to the sum method. -/
theorem setAggregation_spec_witness :
    setAggregation sampleFile (some "sum") none =
      .ok (("average", .finite (1 / 2)),
        { sampleFile with aggregationMethod := "sum" }) ∧
    (infoOf { sampleFile with aggregationMethod := "sum" }).aggregationMethod = "sum" :=
  setAggregation_spec sampleFile "sum" (by decide) (by decide)

/-- C3: a fetch with fromTime after untilTime raises InvalidTimeInterval; a
fetch entirely in the future or entirely beyond retention returns no data;
otherwise the range is clamped to the retention window and the clock and a
real (timeInfo, values) result is produced from the selected archive. -/
theorem file_fetch_spec (f : WhisperFile) (ft ut : Int) (now : Nat)
    (hne : f.archives ≠ [])
    (hwf : ∀ a ∈ f.archives, 0 < a.info.secondsPerPoint ∧ 0 < a.info.points) :
    (ut < ft → file_fetch f ft ut now none = .error .invalidTimeInterval)
  ∧ (ft ≤ ut → (now : Int) < ft → file_fetch f ft ut now none = .ok none)
  ∧ (ft ≤ ut → ft ≤ (now : Int) → ut < (now : Int) - (f.maxRetention : Int) →
      file_fetch f ft ut now none = .ok none)
  ∧ (ft ≤ ut → ft ≤ (now : Int) → (now : Int) - (f.maxRetention : Int) ≤ ut →
      ∃ arch, chooseArchive f.archives none
          ((now : Int) - max ft ((now : Int) - (f.maxRetention : Int))) = some arch ∧
        file_fetch f ft ut now none =
          .ok (some (archive_fetch arch
            (max ft ((now : Int) - (f.maxRetention : Int))) (min ut (now : Int))))) := by
  refine ⟨?_, ?_, ?_, ?_⟩
  · intro h
    simp only [file_fetch]
    rw [if_pos h]
  · intro h1 h2
    simp only [file_fetch]
    rw [if_neg (not_lt.mpr h1), if_pos h2]
  · intro h1 h2 h3
    simp only [file_fetch]
    rw [if_neg (not_lt.mpr h1), if_neg (not_lt.mpr h2), if_pos h3]
  · intro h1 h2 h3
    have hmax : (if ft < (now : Int) - (f.maxRetention : Int) then
        (now : Int) - (f.maxRetention : Int) else ft) =
        max ft ((now : Int) - (f.maxRetention : Int)) := by
      rcases le_or_lt ((now : Int) - (f.maxRetention : Int)) ft with h | h
      · rw [if_neg (not_lt.mpr h), max_eq_left h]
      · rw [if_pos h, max_eq_right (le_of_lt h)]
    have hmin : (if (now : Int) < ut then (now : Int) else ut) = min ut (now : Int) := by
      rcases le_or_lt ut (now : Int) with h | h
      · rw [if_neg (not_lt.mpr h), min_eq_left h]
      · rw [if_pos h, min_eq_right (le_of_lt h)]
    have hempty : f.archives.isEmpty = false := by
      cases harr : f.archives with
      | nil => exact absurd harr hne
      | cons a l => rfl
    have hsome : ∃ arch, chooseArchive f.archives none
        ((now : Int) - max ft ((now : Int) - (f.maxRetention : Int))) = some arch := by
      unfold chooseArchive
      rw [if_neg (by simp)]
      cases hfind : f.archives.find?
          (fun a => decide ((now : Int) - max ft ((now : Int) - (f.maxRetention : Int)) ≤
            (a.info.retention : Int))) with
      | some a => exact ⟨a, rfl⟩
      | none =>
        obtain ⟨b, hb⟩ := Option.isSome_iff_exists.mp
          (List.getLast?_isSome.mpr hne)
        exact ⟨b, hb⟩
    obtain ⟨arch, harch⟩ := hsome
    refine ⟨arch, harch, ?_⟩
    simp only [file_fetch]
    rw [if_neg (not_lt.mpr h1), if_neg (not_lt.mpr h2), if_neg (not_lt.mpr h3),
      hmax, hmin, hempty]
    simp only [Bool.false_eq_true, if_false, harch]

/-- Witness for C3: a fetch partially in the future on sampleFile clamps the
range and returns five null slots. -/
theorem file_fetch_spec_witness :
    (sampleFile.archives ≠ [] ∧
      ∀ a ∈ sampleFile.archives, 0 < a.info.secondsPerPoint ∧ 0 < a.info.points) ∧
    file_fetch sampleFile 95 105 100 none =
      .ok (some ((96, 101, 1), List.replicate 5 none)) := by
  refine ⟨⟨by decide, by decide⟩, ?_⟩
  obtain ⟨arch, harch, hrun⟩ :=
    (file_fetch_spec sampleFile 95 105 100 (by decide) (by decide)).2.2.2
      (by decide) (by decide) (by decide)
  have harchEval : chooseArchive sampleFile.archives none
      (((100 : Nat) : Int) - max 95 (((100 : Nat) : Int) - (sampleFile.maxRetention : Int))) =
      some (⟨⟨28, 1, 10⟩, List.replicate 10 (0, 0)⟩ : Archive) := by decide
  rw [harchEval] at harch
  injection harch with hA
  subst hA
  rw [hrun]
  decide

/-- A chain of adjacent-pair facts is the same as a fact about every pair of
the list zipped with its tail. -/
theorem chain'_iff_forall_zip {α : Type} (P : α → α → Prop) (xs : List α) :
    xs.Chain' P ↔ ∀ p ∈ xs.zip (xs.drop 1), P p.1 p.2 := by
  induction xs with
  | nil => simp
  | cons a rest ih =>
    cases rest with
    | nil => simp [List.chain'_singleton]
    | cons b r =>
      rw [List.chain'_cons, ih]
      show _ ↔ ∀ p ∈ (a, b) :: (b :: r).zip r, P p.1 p.2
      rw [List.forall_mem_cons]
      rfl

/-- validatePairs succeeds exactly when every adjacent pair of the sorted
list is well formed, and its only error is InvalidConfiguration. -/
theorem validatePairs_eq (xs : List (Nat × Nat)) :
    validatePairs xs =
      if ∀ p ∈ xs.zip (xs.drop 1), GoodPair p.1 p.2 then .ok ()
      else .error .invalidConfiguration := by
  induction xs with
  | nil => simp [validatePairs]
  | cons a rest ih =>
    cases rest with
    | nil => simp [validatePairs]
    | cons b r =>
      have hzip : (a :: b :: r).zip ((a :: b :: r).drop 1) =
          (a, b) :: (b :: r).zip ((b :: r).drop 1) := rfl
      rw [hzip]
      by_cases h1 : a.1 < b.1
      · by_cases h2 : b.1 % a.1 = 0
        · by_cases h3 : a.1 * a.2 < b.1 * b.2
          · by_cases h4 : b.1 / a.1 ≤ a.2
            · have hgood : GoodPair a b := ⟨h1, h2, h3, h4⟩
              simp only [validatePairs, if_neg (not_not_intro h1),
                if_neg (not_not_intro h2), if_neg (not_not_intro h3),
                if_neg (not_not_intro h4), ih, List.forall_mem_cons]
              by_cases hc : ∀ p ∈ (b :: r).zip ((b :: r).drop 1), GoodPair p.1 p.2
              · rw [if_pos hc, if_pos ⟨hgood, hc⟩]
              · rw [if_neg hc, if_neg (by intro h; exact hc h.2)]
            · have hbad : ¬ GoodPair a b := by
                intro h
                exact h4 h.2.2.2
              simp only [validatePairs, if_neg (not_not_intro h1),
                if_neg (not_not_intro h2), if_neg (not_not_intro h3),
                if_pos h4, List.forall_mem_cons]
              rw [if_neg (by intro h; exact hbad h.1)]
          · have hbad : ¬ GoodPair a b := by
              intro h
              exact h3 h.2.2.1
            simp only [validatePairs, if_neg (not_not_intro h1),
              if_neg (not_not_intro h2), if_pos h3, List.forall_mem_cons]
            rw [if_neg (by intro h; exact hbad h.1)]
        · have hbad : ¬ GoodPair a b := by
            intro h
            exact h2 h.2.1
          simp only [validatePairs, if_neg (not_not_intro h1), if_pos h2,
            List.forall_mem_cons]
          rw [if_neg (by intro h; exact hbad h.1)]
      · have hbad : ¬ GoodPair a b := by
          intro h
          exact h1 h.1
        simp only [validatePairs, if_pos h1, List.forall_mem_cons]
        rw [if_neg (by intro h; exact hbad h.1)]

/-- In the precision-sorted list, some adjacent pair fails the strict
precision increase exactly when the original list repeats a precision. -/
theorem dup_bridge (l : List (Nat × Nat)) :
    (∃ p ∈ (l.insertionSort (fun a b => a.1 ≤ b.1)).zip
        ((l.insertionSort (fun a b => a.1 ≤ b.1)).drop 1), ¬ (p.1.1 < p.2.1)) ↔
      ¬ (l.map Prod.fst).Nodup := by
  haveI : IsTrans (Nat × Nat) (fun a b : Nat × Nat => a.1 < b.1) :=
    ⟨fun _ _ _ hab hbc => lt_trans hab hbc⟩
  haveI : IsTotal (Nat × Nat) (fun a b : Nat × Nat => a.1 ≤ b.1) :=
    ⟨fun a b => Nat.le_total a.1 b.1⟩
  haveI : IsTrans (Nat × Nat) (fun a b : Nat × Nat => a.1 ≤ b.1) :=
    ⟨fun _ _ _ hab hbc => le_trans hab hbc⟩
  set S := l.insertionSort (fun a b => a.1 ≤ b.1) with hS
  have hsorted : S.Pairwise (fun a b => a.1 ≤ b.1) := List.sorted_insertionSort _ l
  have hperm : S.Perm l := List.perm_insertionSort _ l
  have e1 : (∀ p ∈ S.zip (S.drop 1), p.1.1 < p.2.1) ↔
      S.Chain' (fun a b => a.1 < b.1) :=
    (chain'_iff_forall_zip (fun a b : Nat × Nat => a.1 < b.1) S).symm
  have e2 : S.Chain' (fun a b : Nat × Nat => a.1 < b.1) ↔
      S.Pairwise (fun a b => a.1 < b.1) := List.chain'_iff_pairwise
  have e3 : S.Pairwise (fun a b : Nat × Nat => a.1 < b.1) ↔
      S.Pairwise (fun a b => a.1 ≠ b.1) := by
    constructor
    · intro h
      exact h.imp (fun hab => Nat.ne_of_lt hab)
    · intro h
      exact (hsorted.and h).imp (fun hab => lt_of_le_of_ne hab.1 hab.2)
  have e4 : S.Pairwise (fun a b : Nat × Nat => a.1 ≠ b.1) ↔
      l.Pairwise (fun a b => a.1 ≠ b.1) :=
    List.Perm.pairwise_iff (fun hxy => Ne.symm hxy) hperm
  have e5 : l.Pairwise (fun a b : Nat × Nat => a.1 ≠ b.1) ↔
      (l.map Prod.fst).Nodup := by
    unfold List.Nodup
    exact List.pairwise_map.symm
  have key := e1.trans (e2.trans (e3.trans (e4.trans e5)))
  constructor
  · rintro ⟨p, hp, hnp⟩ hnd
    exact hnp (key.mpr hnd p hp)
  · intro h
    by_contra h2
    push_neg at h2
    exact h (key.mp (fun p hp => h2 p hp))

/-- C8: with positive precisions, create raises InvalidConfiguration exactly
when the archive list is empty, a precision repeats, a coarser precision is
not a multiple of the next finer one, retention does not strictly grow,
an archive lacks the points to fill one coarser slot, or the target file
already exists. -/
theorem create_invalidConfiguration_iff (fileExists : Bool) (l : List (Nat × Nat))
    (hpos : ∀ p ∈ l, 0 < p.1) :
    (create fileExists l none none = .error .invalidConfiguration) ↔
      c8Conditions fileExists l := by
  by_cases hnil : l = []
  · subst hnil
    exact ⟨fun _ => Or.inl rfl, fun _ => rfl⟩
  · have hempty : l.isEmpty = false := by
      cases l with
      | nil => exact absurd rfl hnil
      | cons a r => rfl
    set S := l.insertionSort (fun a b => a.1 ≤ b.1) with hS
    by_cases hch : ∀ p ∈ S.zip (S.drop 1), GoodPair p.1 p.2
    · have hval : validateArchiveList l = .ok S := by
        simp only [validateArchiveList, hempty, Bool.false_eq_true, if_false,
          validatePairs_eq]
        rw [if_pos hch]
      cases fileExists with
      | true =>
        have hcr : create true l none none = .error .invalidConfiguration := by
          simp only [create, hval, bind_ok_eq]
          rfl
        rw [hcr]
        simp [c8Conditions]
      | false =>
        have hcr : create false l none none =
            .ok (applyMetadata
              { aggregationMethod := "average", maxRetention := 0,
                xFilesFactor := .finite 0,
                archives := buildArchives (metadataSize + archiveInfoSize * S.length) S }
              ⟨1, (S.map (fun p => p.1 * p.2)).foldl max 0, .finite (1 / 2), S.length⟩) := by
          simp only [create, hval, bind_ok_eq]
          rfl
        rw [hcr]
        simp only [reduceCtorEq, false_iff]
        intro hcond
        unfold c8Conditions at hcond
        rcases hcond with h | h | h | h | h | h
        · exact hnil h
        · obtain ⟨p, hp, hplt⟩ := (dup_bridge l).mpr h
          exact hplt (hch p hp).1
        · obtain ⟨p, hp, hdvd⟩ := h
          exact hdvd (Nat.dvd_iff_mod_eq_zero.mpr (hch p hp).2.1)
        · obtain ⟨p, hp, hret⟩ := h
          exact hret (hch p hp).2.2.1
        · obtain ⟨p, hp, hpts⟩ := h
          exact absurd hpts (not_lt.mpr (hch p hp).2.2.2)
        · exact Bool.false_ne_true h
    · have hval : validateArchiveList l = .error .invalidConfiguration := by
        simp only [validateArchiveList, hempty, Bool.false_eq_true, if_false,
          validatePairs_eq]
        rw [if_neg hch]
      have hcr : create fileExists l none none = .error .invalidConfiguration := by
        simp only [create, hval]
        rfl
      rw [hcr]
      simp only [true_iff]
      have hbadx : ∃ p ∈ S.zip (S.drop 1), ¬ GoodPair p.1 p.2 := by
        by_contra hno
        push_neg at hno
        exact hch (fun p hp => hno p hp)
      obtain ⟨p, hp, hbad⟩ := hbadx
      unfold c8Conditions
      by_cases hA : p.1.1 < p.2.1
      · by_cases hB : p.2.1 % p.1.1 = 0
        · by_cases hC : p.1.1 * p.1.2 < p.2.1 * p.2.2
          · by_cases hD : p.2.1 / p.1.1 ≤ p.1.2
            · exact absurd ⟨hA, hB, hC, hD⟩ hbad
            · exact Or.inr (Or.inr (Or.inr (Or.inr (Or.inl
                ⟨p, hp, not_le.mp hD⟩))))
          · exact Or.inr (Or.inr (Or.inr (Or.inl ⟨p, hp, hC⟩)))
        · exact Or.inr (Or.inr (Or.inl
            ⟨p, hp, fun hd => hB (Nat.dvd_iff_mod_eq_zero.mp hd)⟩))
      · exact Or.inr (Or.inl ((dup_bridge l).mp ⟨p, hp, hA⟩))

/-- Witness for C8: duplicate precisions raise InvalidConfiguration. -/
theorem create_invalidConfiguration_iff_witness :
    (∀ p ∈ [(1, 5), (1, 5)], 0 < p.1) ∧
    create false [(1, 5), (1, 5)] none none = .error .invalidConfiguration := by
  refine ⟨by decide, ?_⟩
  exact (create_invalidConfiguration_iff false [(1, 5), (1, 5)] (by decide)).mpr
    (by decide)

/-- Adding a Nat to an integer commutes with reducing into a ring of p
slots. -/
theorem emod_toNat_add (d : Int) (k p : Nat) (hp : 0 < p) :
    ((d + (k : Int)) % (p : Int)).toNat = ((d % (p : Int)).toNat + k) % p := by
  have hpz : (p : Int) ≠ 0 := by exact_mod_cast hp.ne'
  have h0 : 0 ≤ d % (p : Int) := Int.emod_nonneg d hpz
  have e := Int.ediv_add_emod d (p : Int)
  have hdd : (d + (k : Int)) % (p : Int) = (d % (p : Int) + (k : Int)) % (p : Int) := by
    calc (d + (k : Int)) % (p : Int)
        = (d % (p : Int) + (k : Int) + (p : Int) * (d / (p : Int))) % (p : Int) := by
          congr 1
          linarith
      _ = (d % (p : Int) + (k : Int)) % (p : Int) := Int.add_mul_emod_self_left _ _ _
  rw [hdd]
  obtain ⟨en, hen⟩ : ∃ en : Nat, d % (p : Int) = (en : Int) :=
    ⟨(d % (p : Int)).toNat, (Int.toNat_of_nonneg h0).symm⟩
  rw [hen]
  rw [show (en : Int) + (k : Int) = ((en + k : Nat) : Int) from by push_cast; ring]
  rw [← Int.natCast_mod, Int.toNat_natCast, Int.toNat_natCast]

/-- The byte arithmetic of wrapSlot is plain modular slot arithmetic. -/
theorem wrapSlot_eq (a : ArchiveInfo) (base : Nat) (t : Int) (hpts : 0 < a.points) :
    wrapSlot a base t =
      (((t - (base : Int)) / (a.secondsPerPoint : Int)) % (a.points : Int)).toNat := by
  simp only [wrapSlot, ArchiveInfo.size]
  set d := (t - (base : Int)) / (a.secondsPerPoint : Int) with hdDef
  have h0 : 0 ≤ d % (a.points : Int) :=
    Int.emod_nonneg d (by exact_mod_cast hpts.ne')
  rw [show ((a.points * pointSize : Nat) : Int) = (12 : Int) * (a.points : Int) from by
    push_cast [pointSize]
    ring]
  rw [show d * ((pointSize : Nat) : Int) = (12 : Int) * d from by
    push_cast [pointSize]
    ring]
  rw [Int.mul_emod_mul_of_pos d (a.points : Int) (by norm_num : (0 : Int) < 12)]
  obtain ⟨en, hen⟩ : ∃ en : Nat, d % (a.points : Int) = (en : Int) :=
    ⟨_, (Int.toNat_of_nonneg h0).symm⟩
  rw [hen, show (12 : Int) * (en : Int) = ((12 * en : Nat) : Int) from by push_cast; ring,
    Int.toNat_natCast, Int.toNat_natCast]
  show 12 * en / pointSize = en
  exact Nat.mul_div_cancel_left en (by norm_num [pointSize])

/-- The ring slot of an interval k steps later. -/
theorem wrapSlot_add (a : ArchiveInfo) (base : Nat) (x : Int) (k : Nat)
    (hstep : 0 < a.secondsPerPoint) (hpts : 0 < a.points) :
    wrapSlot a base (x + (k : Int) * (a.secondsPerPoint : Int)) =
      (wrapSlot a base x + k) % a.points := by
  rw [wrapSlot_eq _ _ _ hpts, wrapSlot_eq _ _ _ hpts]
  have hsz : ((a.secondsPerPoint : Nat) : Int) ≠ 0 := by exact_mod_cast hstep.ne'
  have hdiv : (x + (k : Int) * (a.secondsPerPoint : Int) - (base : Int)) /
      (a.secondsPerPoint : Int) =
      (x - (base : Int)) / (a.secondsPerPoint : Int) + (k : Int) := by
    rw [show x + (k : Int) * (a.secondsPerPoint : Int) - (base : Int)
        = (x - (base : Int)) + (k : Int) * (a.secondsPerPoint : Int) from by ring]
    exact Int.add_mul_ediv_right _ _ hsz
  rw [hdiv]
  exact emod_toNat_add _ k _ hpts

/-- The ring slot arithmetic stays below the point count. -/
theorem wrapSlot_lt (a : ArchiveInfo) (base : Nat) (t : Int) (hpts : 0 < a.points) :
    wrapSlot a base t < a.points := by
  rw [wrapSlot_eq _ _ _ hpts]
  have h0 : 0 ≤ ((t - (base : Int)) / (a.secondsPerPoint : Int)) % (a.points : Int) :=
    Int.emod_nonneg _ (by exact_mod_cast hpts.ne')
  have h1 : ((t - (base : Int)) / (a.secondsPerPoint : Int)) % (a.points : Int) <
      (a.points : Int) := Int.emod_lt_of_pos _ (by exact_mod_cast hpts)
  omega

/-- Length of a wrap-aware read of n consecutive slots. -/
theorem readRange_length (body : List Point) (s0 n : Nat)
    (hs0 : s0 < body.length) (hn0 : 0 < n) (hn : n ≤ body.length) :
    (readRange body s0 ((s0 + n) % body.length)).length = n := by
  unfold readRange
  by_cases hlt : s0 + n < body.length
  · rw [Nat.mod_eq_of_lt hlt, if_pos (by omega)]
    rw [List.length_take, List.length_drop]
    omega
  · have hmod : (s0 + n) % body.length = s0 + n - body.length := by
      rw [Nat.mod_eq_sub_mod (by omega), Nat.mod_eq_of_lt (by omega)]
    rw [hmod, if_neg (by omega), List.length_append, List.length_drop,
      List.length_take, Nat.min_eq_left (by omega)]
    omega

/-- A wrap-aware read of n consecutive slots is modular indexing. -/
theorem readRange_getElem? (body : List Point) (s0 n : Nat)
    (hs0 : s0 < body.length) (hn0 : 0 < n) (hn : n ≤ body.length)
    (k : Nat) (hk : k < n) :
    (readRange body s0 ((s0 + n) % body.length))[k]? =
      body[(s0 + k) % body.length]? := by
  unfold readRange
  by_cases hlt : s0 + n < body.length
  · rw [Nat.mod_eq_of_lt hlt, if_pos (by omega)]
    rw [List.getElem?_take, if_pos (by omega), List.getElem?_drop,
      Nat.mod_eq_of_lt (by omega)]
  · have hmod : (s0 + n) % body.length = s0 + n - body.length := by
      rw [Nat.mod_eq_sub_mod (by omega), Nat.mod_eq_of_lt (by omega)]
    rw [hmod, if_neg (by omega), List.getElem?_append]
    by_cases hk2 : k < body.length - s0
    · rw [if_pos (by rw [List.length_drop]; omega)]
      rw [List.getElem?_drop, Nat.mod_eq_of_lt (by omega)]
    · rw [if_neg (by rw [List.length_drop]; omega), List.length_drop,
        List.getElem?_take, if_pos (by omega)]
      have hmod2 : (s0 + k) % body.length = k - (body.length - s0) := by
        rw [Nat.mod_eq_sub_mod (by omega), Nat.mod_eq_of_lt (by omega)]
        omega
      rw [hmod2]

/-- The fetch bounds decompose as fromInterval plus a positive number of
whole steps. -/
theorem fetch_interval_decomp (step : Nat) (ft ut : Int) (hstep : 0 < step)
    (hfu : ft ≤ ut) :
    0 < fetchSlots step ft ut ∧
    fetchUntilInterval step ft ut =
      fetchInterval step ft + (fetchSlots step ft ut : Int) * (step : Int) := by
  have hsz : ((step : Nat) : Int) ≠ 0 := by exact_mod_cast hstep.ne'
  have hf : fetchInterval step ft = (step : Int) * (ft / (step : Int)) + step := by
    unfold fetchInterval
    rw [Int.emod_def]
    ring
  have hu : fetchInterval step ut = (step : Int) * (ut / (step : Int)) + step := by
    unfold fetchInterval
    rw [Int.emod_def]
    ring
  have hle : ft / (step : Int) ≤ ut / (step : Int) :=
    Int.ediv_le_ediv (by exact_mod_cast hstep) hfu
  by_cases heq : fetchInterval step ft = fetchInterval step ut
  · have hslots : fetchSlots step ft ut = 1 := by
      unfold fetchSlots fetchUntilInterval
      rw [if_pos heq, ← heq]
      rw [show fetchInterval step ft + (step : Int) - fetchInterval step ft =
        (step : Int) from by ring]
      rw [Int.ediv_self hsz]
      rfl
    have huntil : fetchUntilInterval step ft ut = fetchInterval step ft + step := by
      unfold fetchUntilInterval
      rw [if_pos heq, ← heq]
    rw [hslots, huntil]
    refine ⟨by norm_num, ?_⟩
    push_cast
    ring
  · have hq : ft / (step : Int) < ut / (step : Int) := by
      rcases lt_or_eq_of_le hle with h | h
      · exact h
      · exact absurd (by rw [hf, hu, h]) heq
    have hk1 : (1 : Int) ≤ ut / (step : Int) - ft / (step : Int) := by linarith
    have hdiff : fetchInterval step ut - fetchInterval step ft =
        (step : Int) * (ut / (step : Int) - ft / (step : Int)) := by
      rw [hf, hu]
      ring
    have hslots : fetchSlots step ft ut =
        (ut / (step : Int) - ft / (step : Int)).toNat := by
      unfold fetchSlots fetchUntilInterval
      rw [if_neg heq, hdiff, Int.mul_ediv_cancel_left _ hsz]
    have huntil : fetchUntilInterval step ft ut = fetchInterval step ut := by
      unfold fetchUntilInterval
      rw [if_neg heq]
    constructor
    · rw [hslots]
      omega
    · rw [hslots, huntil, Int.toNat_of_nonneg (by linarith)]
      linarith [hdiff, mul_comm (step : Int) (ut / (step : Int) - ft / (step : Int))]

/-- C4 counterexample: an explicit granularity selector may request a span
longer than the archive's retention; the returned vector is then shorter
than (untilInterval - fromInterval) / step.  Here fromInterval = 151,
untilInterval = 401, step = 1, so the claim requires 250 values, but the
fetch (through file_fetch with the one-second selector) returns one. -/
theorem archive_fetch_span_cex :
    file_fetch staleFile 150 400 400 (some 1) =
      .ok (some ((151, 401, 1), [none])) := by decide

/-- C4 (amended): whenever the requested span (untilInterval - fromInterval)
divided by step does not exceed the archive's point count - which always
holds for the default age-based archive selection, though an explicit
selector can violate it - a fetch returns timeInfo
(fromInterval, untilInterval, step) with the intervals rounded one step up
(untilInterval one step further when the two coincide), and a dense value
vector of exactly that many slots in which index i carries the stored value
at the ring slot of fromInterval + i * step exactly when that slot's
timestamp equals the interval, and null otherwise (an archive with base
timestamp 0 reads as all nulls). -/
theorem archive_fetch_spec (arch : Archive) (ft ut : Int)
    (hstep : 0 < arch.info.secondsPerPoint)
    (hpts : 0 < arch.info.points)
    (hlen : arch.body.length = arch.info.points)
    (hfu : ft ≤ ut)
    (hspan : fetchSlots arch.info.secondsPerPoint ft ut ≤ arch.info.points) :
    archive_fetch arch ft ut =
      ((fetchInterval arch.info.secondsPerPoint ft,
        fetchUntilInterval arch.info.secondsPerPoint ft ut,
        arch.info.secondsPerPoint),
        (List.range (fetchSlots arch.info.secondsPerPoint ft ut)).map
          (fetchSpecValue arch (fetchInterval arch.info.secondsPerPoint ft))) := by
  obtain ⟨hn0, huntil⟩ :=
    fetch_interval_decomp arch.info.secondsPerPoint ft ut hstep hfu
  by_cases hbase : baseTimestamp arch.body = 0
  · simp only [archive_fetch]
    rw [if_pos hbase]
    apply congrArg (Prod.mk _)
    symm
    rw [List.eq_replicate_iff]
    refine ⟨by simp, ?_⟩
    intro b hb
    simp only [List.mem_map, List.mem_range] at hb
    obtain ⟨i, _, hbi⟩ := hb
    rw [← hbi]
    simp [fetchSpecValue, hbase]
  · simp only [archive_fetch]
    rw [if_neg hbase]
    apply congrArg (Prod.mk _)
    have hslotu : wrapSlot arch.info (baseTimestamp arch.body)
        (fetchUntilInterval arch.info.secondsPerPoint ft ut) =
        (wrapSlot arch.info (baseTimestamp arch.body)
          (fetchInterval arch.info.secondsPerPoint ft) +
            fetchSlots arch.info.secondsPerPoint ft ut) % arch.body.length := by
      rw [huntil, hlen]
      exact wrapSlot_add arch.info (baseTimestamp arch.body)
        (fetchInterval arch.info.secondsPerPoint ft)
        (fetchSlots arch.info.secondsPerPoint ft ut) hstep hpts
    rw [hslotu]
    have hs0 : wrapSlot arch.info (baseTimestamp arch.body)
        (fetchInterval arch.info.secondsPerPoint ft) < arch.body.length := by
      rw [hlen]
      exact wrapSlot_lt arch.info _ _ hpts
    have hnlen : fetchSlots arch.info.secondsPerPoint ft ut ≤ arch.body.length := by
      rw [hlen]
      exact hspan
    have hrl := readRange_length arch.body _ _ hs0 hn0 hnlen
    apply List.ext_getElem?
    intro k
    by_cases hk : k < fetchSlots arch.info.secondsPerPoint ft ut
    · have hrg := readRange_getElem? arch.body _ _ hs0 hn0 hnlen k hk
      rw [seriesToValues, List.getElem?_map, hrl, List.getElem?_range hk,
        List.getElem?_map, List.getElem?_range hk]
      simp only [Option.map_some']
      have hgd : (readRange arch.body
          (wrapSlot arch.info (baseTimestamp arch.body)
            (fetchInterval arch.info.secondsPerPoint ft))
          ((wrapSlot arch.info (baseTimestamp arch.body)
            (fetchInterval arch.info.secondsPerPoint ft) +
              fetchSlots arch.info.secondsPerPoint ft ut) % arch.body.length)).getD
          k (0, 0) =
          arch.body.getD
            ((wrapSlot arch.info (baseTimestamp arch.body)
              (fetchInterval arch.info.secondsPerPoint ft) + k) %
                arch.body.length) (0, 0) := by
        rw [List.getD_eq_getElem?_getD, List.getD_eq_getElem?_getD, hrg]
      rw [hgd]
      have hslotk : wrapSlot arch.info (baseTimestamp arch.body)
          (fetchInterval arch.info.secondsPerPoint ft +
            (k : Int) * (arch.info.secondsPerPoint : Int)) =
          (wrapSlot arch.info (baseTimestamp arch.body)
            (fetchInterval arch.info.secondsPerPoint ft) + k) % arch.body.length := by
        rw [hlen]
        exact wrapSlot_add arch.info _ _ k hstep hpts
      simp only [fetchSpecValue, hbase, if_neg hbase, hslotk, if_false]
    · have hk' : ¬ k < fetchSlots arch.info.secondsPerPoint ft ut := hk
      rw [List.getElem?_eq_none, List.getElem?_eq_none]
      · simp only [List.length_map, List.length_range]
        omega
      · simp only [seriesToValues, List.length_map, List.length_range, hrl]
        omega

/-- Witness for C4: a three-slot read inside the archive's retention on a
populated ring. -/
theorem archive_fetch_spec_witness :
    (0 < staleArchive.info.secondsPerPoint ∧ 0 < staleArchive.info.points ∧
      staleArchive.body.length = staleArchive.info.points ∧
      ((100 : Int) ≤ 102) ∧
      fetchSlots staleArchive.info.secondsPerPoint 100 102 ≤
        staleArchive.info.points) ∧
    archive_fetch staleArchive 100 102 =
      ((fetchInterval staleArchive.info.secondsPerPoint 100,
        fetchUntilInterval staleArchive.info.secondsPerPoint 100 102,
        staleArchive.info.secondsPerPoint),
        (List.range (fetchSlots staleArchive.info.secondsPerPoint 100 102)).map
          (fetchSpecValue staleArchive
            (fetchInterval staleArchive.info.secondsPerPoint 100))) := by
  refine ⟨⟨by decide, by decide, by decide, by decide, by decide⟩, ?_⟩
  exact archive_fetch_spec staleArchive 100 102 (by decide) (by decide) (by decide)
    (by decide) (by decide)

/-- C5 counterexample: the claim predicts a three-element value vector
[null, 2.0, null] from fetch(now - 1, now + 1) after update(2.0, now); at
now = 1000 the code returns the one-element vector [2.0] instead (the until
time is clamped to the clock and both interval bounds are rounded one step
up). -/
theorem scenario2_cex :
    (scenario2 1000).map (fun o => o.map (fun r => r.2)) ≠
      .ok (some [none, some 2, none]) := by decide

/-- C5 (amended): on the db.wsp file with archives (1,60),(60,60), after
update("db.wsp", 2.0, now) with any positive clock now (trivially aligned
to the one-second step), fetch("db.wsp", now - 1, now + 1) returns timeInfo
(now, now + 1, 1) and the one-element value vector [2.0]. -/
theorem scenario2_spec (now : Nat) (h : 0 < now) :
    scenario2 now = .ok (some ((((now : Nat) : Int), ((now : Nat) : Int) + 1, 1),
      [some 2])) := by
  have hc : create false [(1, 60), (60, 60)] none none =
      .ok ⟨"average", 3600, .finite (1 / 2),
        [⟨⟨40, 1, 60⟩, List.replicate 60 (0, 0)⟩,
         ⟨⟨760, 60, 60⟩, List.replicate 60 (0, 0)⟩]⟩ := by decide
  obtain ⟨L, hL⟩ := propagateChain_ok "average" (by decide) (.finite (1 / 2)) now
    [⟨⟨760, 60, 60⟩, List.replicate 60 (0, 0)⟩]
    ⟨⟨40, 1, 60⟩, (now, 2) :: List.replicate 59 (0, 0)⟩
  have hwp : writePoint ⟨40, 1, 60⟩ (List.replicate 60 ((0 : Nat), (0 : ℚ))) now 2 =
      (now, 2) :: List.replicate 59 (0, 0) := by
    rw [show List.replicate 60 ((0 : Nat), (0 : ℚ)) =
      ((0 : Nat), (0 : ℚ)) :: List.replicate 59 (0, 0) from rfl]
    simp [writePoint, baseTimestamp]
  have hsp : splitAtTarget 0
      [(⟨⟨40, 1, 60⟩, List.replicate 60 (0, 0)⟩ : Archive),
       ⟨⟨760, 60, 60⟩, List.replicate 60 (0, 0)⟩] =
      some ([], ⟨⟨40, 1, 60⟩, List.replicate 60 (0, 0)⟩,
        [⟨⟨760, 60, 60⟩, List.replicate 60 (0, 0)⟩]) := by decide
  have hup : file_update
      ⟨"average", 3600, .finite (1 / 2),
        [⟨⟨40, 1, 60⟩, List.replicate 60 (0, 0)⟩,
         ⟨⟨760, 60, 60⟩, List.replicate 60 (0, 0)⟩]⟩ 2 now now =
      .ok ⟨"average", 3600, .finite (1 / 2),
        ⟨⟨40, 1, 60⟩, (now, 2) :: List.replicate 59 (0, 0)⟩ :: L⟩ := by
    simp only [file_update]
    rw [sub_self]
    rw [if_neg (not_not_intro ⟨by norm_num, le_refl 0⟩)]
    simp only [hsp, Nat.mod_one, Nat.sub_zero, hwp, hL, List.nil_append]
  have hfetchA : archive_fetch ⟨⟨40, 1, 60⟩, (now, 2) :: List.replicate 59 (0, 0)⟩
      (((now : Nat) : Int) - 1) ((now : Nat) : Int) =
      ((((now : Nat) : Int), ((now : Nat) : Int) + 1, 1), [some 2]) := by
    have hF : fetchInterval 1 (((now : Nat) : Int) - 1) = ((now : Nat) : Int) := by
      unfold fetchInterval
      push_cast
      rw [Int.emod_one]
      ring
    have hU0 : fetchInterval 1 ((now : Nat) : Int) = ((now : Nat) : Int) + 1 := by
      unfold fetchInterval
      push_cast
      rw [Int.emod_one]
      ring
    have hU : fetchUntilInterval 1 (((now : Nat) : Int) - 1) ((now : Nat) : Int) =
        ((now : Nat) : Int) + 1 := by
      unfold fetchUntilInterval
      rw [hF, hU0, if_neg (by omega)]
    have hws0 : wrapSlot ⟨40, 1, 60⟩ now ((now : Nat) : Int) = 0 := by
      rw [wrapSlot_eq _ _ _ (by norm_num)]
      simp
    have hws1 : wrapSlot ⟨40, 1, 60⟩ now (((now : Nat) : Int) + 1) = 1 := by
      rw [wrapSlot_eq _ _ _ (by norm_num)]
      rw [show ((now : Nat) : Int) + 1 - ((now : Nat) : Int) = 1 from by ring]
      simp
    simp only [archive_fetch, hF, hU, baseTimestamp, List.headD_cons,
      if_neg (Nat.pos_iff_ne_zero.mp h), hws0, hws1]
    rw [show readRange ((now, (2 : ℚ)) :: List.replicate 59 (0, 0)) 0 1 =
      [(now, 2)] from by simp [readRange]]
    simp [seriesToValues, List.range_succ]
  have hff : file_fetch
      ⟨"average", 3600, .finite (1 / 2),
        ⟨⟨40, 1, 60⟩, (now, 2) :: List.replicate 59 (0, 0)⟩ :: L⟩
      (((now : Nat) : Int) - 1) (((now : Nat) : Int) + 1) now none =
      .ok (some ((((now : Nat) : Int), ((now : Nat) : Int) + 1, 1), [some 2])) := by
    have c1 : ¬(((now : Nat) : Int) - 1 > ((now : Nat) : Int) + 1) := by omega
    have c2 : ¬(((now : Nat) : Int) - 1 > ((now : Nat) : Int)) := by omega
    have c3 : ¬(((now : Nat) : Int) + 1 < ((now : Nat) : Int) - ((3600 : Nat) : Int)) := by
      push_cast
      omega
    have c4 : ¬(((now : Nat) : Int) - 1 < ((now : Nat) : Int) - ((3600 : Nat) : Int)) := by
      push_cast
      omega
    have c5 : ((now : Nat) : Int) + 1 > ((now : Nat) : Int) := by omega
    simp only [file_fetch, if_neg c1, if_neg c2, if_neg c3, if_neg c4, if_pos c5]
    rw [show ((now : Nat) : Int) - (((now : Nat) : Int) - 1) = 1 from by ring]
    have hchoose : chooseArchive
        (⟨⟨40, 1, 60⟩, (now, 2) :: List.replicate 59 (0, 0)⟩ :: L) none 1 =
        some ⟨⟨40, 1, 60⟩, (now, 2) :: List.replicate 59 (0, 0)⟩ := by
      simp only [chooseArchive, Option.getD_none, ne_eq, not_true_eq_false,
        if_false]
      rw [List.find?_cons_of_pos _ (by simp [ArchiveInfo.retention])]
    simp only [List.isEmpty_cons, Bool.false_eq_true, if_false, hchoose]
    rw [hfetchA]
  simp only [scenario2, hc, bind_ok_eq, hup, hff]

/-- Witness for C5 (amended) at now = 1000. -/
theorem scenario2_spec_witness :
    0 < 1000 ∧ scenario2 1000 = .ok (some ((1000, 1001, 1), [some 2])) := by
  refine ⟨by decide, ?_⟩
  have := scenario2_spec 1000 (by decide)
  simpa using this

end Whisper
